import Mathlib

/-!
Shallow embedding of the byte-transfer core of the xcp file-copy utility:
the functions of src/os/linux.rs and libxcp/src/operations.rs that the
verification below is about.  Kernel syscalls (copy_file_range, lseek,
the FIEMAP ioctl, the libfs reflink clone) are modelled as explicit oracle
inputs describing what the kernel answered; machine integers (u64, usize)
are modelled as Nat, since the operations used here (comparison, division,
min, offset addition, length subtraction) stay far below 2^64 in the
source domain and the source itself performs no wrapping arithmetic.
Loops are given an explicit fuel argument; a `none` result means the fuel
ran out while the source loop was still running, so statements about
completed runs quantify over the fuel.
-/

/-- Errno values the source distinguishes by name (rustix Errno); `other`
stands for every remaining error code. -/
inductive Errno where
  | NOSYS
  | PERM
  | XDEV
  | OPNOTSUPP
  | NXIOerr
  | other (n : Nat)
deriving DecidableEq

/-- The crate error type (errors::Result), restricted to the variants the
embedded functions construct: a wrapped OS errno, XcpError::ReflinkFailed
(operations.rs line 119) and XcpError::InvalidArguments (line 50). -/
inductive Error where
  | errno (e : Errno)
  | reflinkFailed (src dst : String)
  | invalidArguments (msg : String)
deriving DecidableEq

/-- linux.rs lines 80-84: result of a successful lseek call. -/
inductive SeekOff where
  | Offset (off : Nat)
  | EOF
deriving DecidableEq

/-- operations.rs lines 34-40: the reflink mode. -/
inductive Reflink where
  | always
  | auto
  | never
deriving DecidableEq

/-- linux.rs lines 30-50 (try_copy_file_range): `cfr` is the result of the
copy_file_range(2) syscall for this call.  Ok is passed through; the errno
values ENOSYS, EPERM and EXDEV mean the syscall is unavailable for this
operation and yield `none` (fall back); every other errno is wrapped and
returned as an error. -/
def try_copy_file_range (cfr : Except Errno Nat) : Option (Except Error Nat) :=
  match cfr with
  | .ok retval => some (.ok retval)
  | .error e =>
    if e = .NOSYS ∨ e = .PERM ∨ e = .XDEV then none
    else some (.error (.errno e))

/-- linux.rs lines 55-58 (copy_file_bytes): try the kernel copy; on `none`
use the user-space fallback.  `uspace` is the result of copy_bytes_uspace
(src/os/common.rs, which is not part of the staged sources), modelled as an
abstract result per spec section 4.4: a buffered user-space copy. -/
def copy_file_bytes (cfr : Except Errno Nat) (uspace : Except Error Nat) : Except Error Nat :=
  (try_copy_file_range cfr).getD uspace

/-- linux.rs lines 74-78 (probably_sparse): compare st_blocks against
st_size / 512 (ST_NBLOCKSIZE = 512), with u64 (truncating) division. -/
def probably_sparse (st_blocks st_size : Nat) : Bool :=
  decide (st_blocks < st_size / 512)

/-- linux.rs lines 86-92 (lseek): `seekResult` is the result of the seek
syscall.  ENXIO becomes Ok(EOF); any other errno propagates; a successful
seek yields the resulting offset. -/
def lseek (seekResult : Except Errno Nat) : Except Error SeekOff :=
  match seekResult with
  | .error e => if e = .NXIOerr then .ok .EOF else .error (.errno e)
  | .ok off => .ok (.Offset off)

/-- Rust str::to_lowercase restricted to the per-character case map; the
tokens matched below are ASCII, where the two agree. -/
def strLower (s : String) : String := s.map Char.toLower

/-- operations.rs lines 42-53 (impl FromStr for Reflink): lowercase the
input and match it against the three tokens, otherwise
XcpError::InvalidArguments with a message naming the value. -/
def Reflink.from_str (s : String) : Except Error Reflink :=
  let t := strLower s
  if t = "always" then .ok .always
  else if t = "auto" then .ok .auto
  else if t = "never" then .ok .never
  else .error (.invalidArguments ("Unexpected value for reflink: " ++ s))

/-- Abstract layout of the source file for the sparse-copy path: the
logical length and, for each offset below the length, whether that offset
lies in an allocated (data) region.  This is the state the SEEK_DATA and
SEEK_HOLE queries of next_sparse_segments read. -/
structure SparseFile where
  len : Nat
  isData : Nat → Bool

/-- Linux SEEK_DATA semantics over the abstract layout: the smallest data
offset at or after pos, when one exists below the length (otherwise the
syscall fails with ENXIO, which lseek maps to EOF). -/
def seekData (f : SparseFile) (pos : Nat) : Option Nat :=
  (List.range f.len).find? (fun n => decide (pos ≤ n) && f.isData n)

/-- linux.rs lines 218-221: SEEK_DATA result with the EOF case replaced by
the file length (infd.metadata()?.len()). -/
def nextData (f : SparseFile) (pos : Nat) : Nat :=
  (seekData f pos).getD f.len

/-- Linux SEEK_HOLE semantics over the abstract layout: the smallest
non-data offset at or after pos below the length; the implicit hole at
end-of-file is handled by `nextHole`. -/
def seekHole (f : SparseFile) (pos : Nat) : Option Nat :=
  (List.range f.len).find? (fun n => decide (pos ≤ n) && !(f.isData n))

/-- linux.rs lines 222-225: SEEK_HOLE result with the EOF case replaced by
the file length. -/
def nextHole (f : SparseFile) (pos : Nat) : Nat :=
  (seekHole f pos).getD f.len

/-- linux.rs lines 217-231 (next_sparse_segments): the next data offset at
or after pos and the next hole offset after that data offset.  The two
trailing Start seeks (lines 227-228) only position the descriptor cursors
for the following copy and return no data. -/
def next_sparse_segments (f : SparseFile) (pos : Nat) : Nat × Nat :=
  let nd := nextData f pos
  (nd, nextHole f nd)

/-- operations.rs lines 83-93 (CopyHandle::copy_bytes).  `oracle i q` is
the result of the i-th copy_file_bytes call of the handle when asked for q
bytes; `upd i` the result of the i-th updates.update call (its error also
propagates through the ? operator).  `written` and `calls` are the loop
state; `fuel` bounds the remaining iterations, `none` meaning the loop was
still running when the bound was reached (the source loop has no exit
other than written reaching len or an error). -/
def copyBytesAux (oracle : Nat → Nat → Except Error Nat) (upd : Nat → Except Error Unit)
    (batch len written calls fuel : Nat) : Option (Except Error (Nat × Nat)) :=
  if written < len then
    match fuel with
    | 0 => none
    | fuel + 1 =>
      let bytesToCopy := min (len - written) batch
      match oracle calls bytesToCopy with
      | .error e => some (.error e)
      | .ok result =>
        match upd calls with
        | .error e => some (.error e)
        | .ok _ => copyBytesAux oracle upd batch len (written + result) (calls + 1) fuel
  else
    some (.ok (written, calls))

/-- CopyHandle::copy_bytes from the initial state: nothing written, call
counter 0.  On success returns (written, calls after the loop). -/
def copy_bytes (oracle : Nat → Nat → Except Error Nat) (upd : Nat → Except Error Unit)
    (batch len fuel : Nat) : Option (Except Error (Nat × Nat)) :=
  copyBytesAux oracle upd batch len 0 0 fuel

/-- operations.rs lines 96-108 (CopyHandle::copy_sparse): walk from pos,
ask next_sparse_segments for (next_data, next_hole), copy next_hole -
next_data bytes with copy_bytes, advance pos to next_hole; on completion
the source returns Ok(len).  The model additionally records the list of
(next_data, next_hole) segments handed to copy_bytes, and threads the
copy_file_bytes call counter through the iterations.  The inner copy_bytes
call is given fuel next_hole - next_data, which suffices whenever every
underlying call transfers at least one byte; `none` again means some loop
was still running when the fuel ran out. -/
def copySparseAux (f : SparseFile) (oracle : Nat → Nat → Except Error Nat)
    (upd : Nat → Except Error Unit) (batch pos calls fuel : Nat) :
    Option (Except Error (List (Nat × Nat) × Nat)) :=
  if pos < f.len then
    match fuel with
    | 0 => none
    | fuel + 1 =>
      let nd := (next_sparse_segments f pos).1
      let nh := (next_sparse_segments f pos).2
      match copyBytesAux oracle upd batch (nh - nd) 0 calls (nh - nd) with
      | none => none
      | some (.error e) => some (.error e)
      | some (.ok (_, calls2)) =>
        match copySparseAux f oracle upd batch nh calls2 fuel with
        | none => none
        | some (.error e) => some (.error e)
        | some (.ok (segs, c)) => some (.ok ((nd, nh) :: segs, c))
  else
    some (.ok ([], calls))

/-- CopyHandle::copy_sparse from offset 0 with call counter 0. -/
def copy_sparse (f : SparseFile) (oracle : Nat → Nat → Except Error Nat)
    (upd : Nat → Except Error Unit) (batch fuel : Nat) :
    Option (Except Error (List (Nat × Nat) × Nat)) :=
  copySparseAux f oracle upd batch 0 0 fuel

/-- operations.rs lines 110-130 (CopyHandle::try_reflink).  `rl` is the
result of the libfs reflink call (not part of the staged sources; per spec
section 4.1: Ok true = the clone succeeded, Ok false = cloning is
unsupported for this source/destination pair, Err = any other clone
failure).  src and dst name the two files for the ReflinkFailed error. -/
def try_reflink (src dst : String) (mode : Reflink) (rl : Except Error Bool) :
    Except Error Bool :=
  match mode with
  | .always | .auto =>
    match rl with
    | .error e => .error e
    | .ok worked =>
      if worked then .ok true
      else if mode = .always then .error (.reflinkFailed src dst)
      else .ok false
  | .never => .ok false

/-- operations.rs lines 132-143 (CopyHandle::copy_file).  `sp` is the
result of probably_sparse on the open source descriptor; f.len is the
metadata length snapshot of the handle (self.metadata.len()). -/
def copy_file (src dst : String) (mode : Reflink) (rl : Except Error Bool)
    (sp : Except Error Bool) (f : SparseFile) (oracle : Nat → Nat → Except Error Nat)
    (upd : Nat → Except Error Unit) (batch fuel : Nat) : Option (Except Error Nat) :=
  match try_reflink src dst mode rl with
  | .error e => some (.error e)
  | .ok true => some (.ok f.len)
  | .ok false =>
    match sp with
    | .error e => some (.error e)
    | .ok true =>
      match copy_sparse f oracle upd batch fuel with
      | none => none
      | some (.error e) => some (.error e)
      | some (.ok _) => some (.ok f.len)
    | .ok false =>
      match copy_bytes oracle upd batch f.len fuel with
      | none => none
      | some (.error e) => some (.error e)
      | some (.ok (written, _)) => some (.ok written)

/-- operations.rs lines 56-62: the fields of CopyHandle this development
reads: the metadata length snapshot and the destination size after
construction. -/
structure CopyHandle where
  metaLen : Nat
  dstSize : Nat

/-- Modelled from the spec: allocate_file lives in libfs (src/os/common.rs,
which is not among the staged sources); per spec section 6 it is the
primitive that pre-sizes an open file to a given length. -/
def allocate_file (_current len : Nat) : Nat := len

/-- operations.rs lines 65-80 (CopyHandle::new): open the source, snapshot
its metadata, create the destination (File::create truncates, size 0), and
allocate it to the metadata length before the handle is returned. -/
def CopyHandle.new (srcFile : SparseFile) : CopyHandle :=
  let metadata := srcFile.len
  let created : Nat := 0
  { metaLen := metadata, dstSize := allocate_file created metadata }

/-- linux.rs lines 101-110: the fields of struct fiemap_extent that
map_extents reads (fe_logical, fe_length, fe_flags). -/
structure FExtent where
  fe_logical : Nat
  fe_length : Nat
  fe_flags : Nat
deriving DecidableEq

/-- The range pushed for one extent at linux.rs lines 199-202:
start..start + length. -/
def extRange (e : FExtent) : Nat × Nat := (e.fe_logical, e.fe_logical + e.fe_length)

/-- linux.rs lines 125-135: the fields of struct FiemapReq that the
map_extents loop body reads: the query offset fm_start, the output count
fm_mapped_extents, and the extent array fm_extents (modelled as a function
from index, matching the by-index reads at lines 199 and 205). -/
structure FiemapReq where
  fm_start : Nat
  fm_mapped_extents : Nat
  fm_extents : Nat → FExtent

/-- linux.rs lines 137-149 (FiemapReq::default): fm_start 0, no mapped
extents, zeroed extent array. -/
def FiemapReq.default : FiemapReq :=
  { fm_start := 0, fm_mapped_extents := 0, fm_extents := fun _ => ⟨0, 0, 0⟩ }

/-- linux.rs lines 168-215 (map_extents), as staged.  `oracle start` is
the status of the FIEMAP ioctl for a request whose fm_start is start,
together with the extents the kernel reported.  The rustix ioctl call at
line 182 receives the Copy struct FiemapReq by value, and the Ok(_) arm
(lines 188-191) discards the call's returned output, so the kernel writes
its response into a temporary copy and the `req` that the rest of the
loop body reads (lines 194-211) is never updated by the call: the Ok
payload of the oracle flows nowhere, and the loop reads
req.fm_mapped_extents and req.fm_extents as they were before the call.
Errno handling (lines 183-187) is on the call's real return value.
`fuel` bounds the iterations as in the other loops. -/
def mapExtentsAux (oracle : Nat → Except Errno (List FExtent)) (req : FiemapReq)
    (acc : List (Nat × Nat)) (fuel : Nat) :
    Option (Except Error (Option (List (Nat × Nat)))) :=
  match fuel with
  | 0 => none
  | fuel + 1 =>
    match oracle req.fm_start with
    | .error e =>
      if e = .OPNOTSUPP then some (.ok none)
      else some (.error (.errno e))
    | .ok _ =>
      if req.fm_mapped_extents = 0 then some (.ok (some acc))
      else
        let es := (List.range req.fm_mapped_extents).map req.fm_extents
        let acc2 := acc ++ es.map extRange
        let lastE := req.fm_extents (req.fm_mapped_extents - 1)
        if lastE.fe_flags &&& 1 ≠ 0 then some (.ok (some acc2))
        else
          mapExtentsAux oracle
            { req with fm_start := lastE.fe_logical + lastE.fe_length } acc2 fuel

/-- map_extents starting from the default request with an empty
accumulator (linux.rs lines 169-171). -/
def map_extents (oracle : Nat → Except Errno (List FExtent)) (fuel : Nat) :
    Option (Except Error (Option (List (Nat × Nat)))) :=
  mapExtentsAux oracle FiemapReq.default [] fuel

/-- Well-formedness of a copied segment list relative to a starting cursor:
each segment (d, h) satisfies lo ≤ d, d ≤ h and h ≤ len, and the following
segments start at or after h.  This makes the segments ordered, pairwise
non-overlapping and contained in the file. -/
def chainSeg (len : Nat) : Nat → List (Nat × Nat) → Prop
  | _, [] => True
  | lo, (d, h) :: rest => lo ≤ d ∧ d ≤ h ∧ h ≤ len ∧ chainSeg len h rest

/-- The cursor position after a run of copy_sparse: the hole offset of the
last copied segment, or the starting position when nothing was copied. -/
def lastHole (pos : Nat) (segs : List (Nat × Nat)) : Nat :=
  ((segs.getLast?).map Prod.snd).getD pos

/-- A concrete FIEMAP kernel: the query at offset 0 is answered with one
non-final extent [0, 4), every later query with one final extent [8, 12).
Under the protocol the spec describes, mapping with this kernel would
accumulate both extents across two queries; it is used to exhibit what the
staged map_extents actually returns. -/
def twoBatchOracle : Nat → Except Errno (List FExtent) :=
  fun s => if s = 0 then .ok [⟨0, 4, 0⟩] else .ok [⟨8, 4, 1⟩]

/-! ## C1 -/

/-- C1 as stated is false: the source tests st_blocks < st_size / 512 with
truncating division, not st_blocks * 512 < st_size.  A 1-byte file with no
allocated blocks has 0 * 512 < 1 yet probably_sparse is false. -/
theorem probably_sparse_claim_cex :
    (probably_sparse 0 1 = true ↔ 0 * 512 < 1) = False := by
  simp [probably_sparse]

/-- C1 (amended): probably_sparse st_blocks st_size is true exactly when
(st_blocks + 1) * 512 ≤ st_size, the arithmetic meaning of the truncating
comparison st_blocks < st_size / 512 of linux.rs line 77. -/
theorem probably_sparse_iff (st_blocks st_size : Nat) :
    probably_sparse st_blocks st_size = true ↔ (st_blocks + 1) * 512 ≤ st_size := by
  have h512 : 0 < 512 := by norm_num
  simp only [probably_sparse, decide_eq_true_eq]
  rw [Nat.lt_iff_add_one_le, Nat.le_div_iff_mul_le h512]

/-- C1 witness: a file of 512 bytes with 0 blocks is classified sparse. -/
theorem probably_sparse_iff_witness : probably_sparse 0 512 = true :=
  (probably_sparse_iff 0 512).mpr (by norm_num)

/-! ## C2 -/

/-- C2: try_reflink follows the mode policy of operations.rs lines 110-130.
Never returns Ok false without looking at the clone result; Auto turns an
unsupported clone (Ok false) into Ok false; Always turns it into
ReflinkFailed naming both files; a successful clone yields Ok true and any
other clone failure propagates unchanged under both Always and Auto. -/
theorem try_reflink_mode_policy (src dst : String) (e : Error) (rl rl2 : Except Error Bool) :
    try_reflink src dst .never rl = .ok false
  ∧ try_reflink src dst .never rl = try_reflink src dst .never rl2
  ∧ try_reflink src dst .auto (.ok false) = .ok false
  ∧ try_reflink src dst .always (.ok false) = .error (.reflinkFailed src dst)
  ∧ try_reflink src dst .always (.ok true) = .ok true
  ∧ try_reflink src dst .auto (.ok true) = .ok true
  ∧ try_reflink src dst .always (.error e) = .error e
  ∧ try_reflink src dst .auto (.error e) = .error e :=
  ⟨rfl, rfl, rfl, rfl, rfl, rfl, rfl, rfl⟩

/-! ## C4 -/

/-- C4: copy_file_bytes takes the user-space fallback exactly when the
kernel copy fails with one of the closed set ENOSYS, EPERM, EXDEV
(linux.rs line 43); a successful kernel copy is passed through, and every
errno outside that set propagates as an error without the fallback. -/
theorem copy_file_bytes_fallback (u : Except Error Nat) (r : Nat) (e : Errno) :
    copy_file_bytes (.ok r) u = .ok r
  ∧ (try_copy_file_range (.error e) = none ↔ (e = .NOSYS ∨ e = .PERM ∨ e = .XDEV))
  ∧ ((e = .NOSYS ∨ e = .PERM ∨ e = .XDEV) → copy_file_bytes (.error e) u = u)
  ∧ (¬(e = .NOSYS ∨ e = .PERM ∨ e = .XDEV) →
      copy_file_bytes (.error e) u = .error (.errno e)) := by
  refine ⟨rfl, ?_, ?_, ?_⟩
  · by_cases hc : e = .NOSYS ∨ e = .PERM ∨ e = .XDEV <;>
      simp [try_copy_file_range, hc]
  · intro hc; simp [copy_file_bytes, try_copy_file_range, hc]
  · intro hc; simp [copy_file_bytes, try_copy_file_range, hc]

/-! ## C7 -/

/-- C7: CopyHandle::new snapshots the source metadata length at open time
and pre-sizes the destination to that length before the handle (and hence
any copy path) exists: after construction the destination size equals both
the source length and the metadata snapshot. -/
theorem copy_handle_new_presizes (srcFile : SparseFile) :
    (CopyHandle.new srcFile).dstSize = srcFile.len
  ∧ (CopyHandle.new srcFile).metaLen = srcFile.len
  ∧ (CopyHandle.new srcFile).dstSize = (CopyHandle.new srcFile).metaLen :=
  ⟨rfl, rfl, rfl⟩

/-! ## C9 -/

/-- C9: parsing a reflink mode succeeds exactly when the lowercased input
is one of the three tokens, yielding the matching mode, and every other
string yields the InvalidArguments error of operations.rs line 50. -/
theorem reflink_from_str_tokens (s : String) :
    ((∃ r, Reflink.from_str s = .ok r) ↔
      (strLower s = "always" ∨ strLower s = "auto" ∨ strLower s = "never"))
  ∧ (Reflink.from_str s = .ok .always ↔ strLower s = "always")
  ∧ (Reflink.from_str s = .ok .auto ↔ strLower s = "auto")
  ∧ (Reflink.from_str s = .ok .never ↔ strLower s = "never")
  ∧ ((∃ r, Reflink.from_str s = .ok r) ∨
      Reflink.from_str s = .error (.invalidArguments ("Unexpected value for reflink: " ++ s))) := by
  by_cases h1 : strLower s = "always"
  · simp [Reflink.from_str, h1]
  by_cases h2 : strLower s = "auto"
  · simp [Reflink.from_str, h1, h2]
  by_cases h3 : strLower s = "never"
  · simp [Reflink.from_str, h1, h2, h3]
  · simp [Reflink.from_str, h1, h2, h3]

/-! ## C10 -/

/-- C10: lseek yields Ok EOF exactly when the seek failed with ENXIO; a
successful seek yields the offset, and every other errno propagates
wrapped. -/
theorem lseek_classification (res : Except Errno Nat) (off : Nat) (e : Errno) :
    (lseek res = .ok .EOF ↔ res = .error .NXIOerr)
  ∧ lseek (.ok off) = .ok (.Offset off)
  ∧ (e ≠ .NXIOerr → lseek (.error e) = .error (.errno e)) := by
  refine ⟨?_, rfl, ?_⟩
  · cases res with
    | ok v => simp [lseek]
    | error e2 => by_cases he : e2 = .NXIOerr <;> simp [lseek, he]
  · intro he; simp [lseek, he]

/-! ## C8 -/

theorem copyBytesAux_zero_progress (fuel : Nat) : ∀ calls,
    copyBytesAux (fun _ _ => .ok 0) (fun _ => .ok ()) 1 1 0 calls fuel = none := by
  induction fuel with
  | zero => intro calls; simp [copyBytesAux]
  | succ fuel ih => intro calls; simpa [copyBytesAux] using ih (calls + 1)

/-- C8: the copy_bytes loop of operations.rs lines 83-93 has no
termination or error rule for a zero-progress iteration: with a remaining
range of 1 byte and every copy_file_bytes call answering Ok 0, no amount
of fuel makes the loop return, so the source loops forever. -/
theorem copy_bytes_zero_progress_divergence :
    (∃ fuel r, copy_bytes (fun _ _ => .ok 0) (fun _ => .ok ()) 1 1 fuel = some r) = False := by
  refine eq_false ?_
  rintro ⟨fuel, r, h⟩
  rw [copy_bytes, copyBytesAux_zero_progress] at h
  cases h

/-! ## C3 -/

theorem copyBytesAux_ok_written (oracle : Nat → Nat → Except Error Nat)
    (upd : Nat → Except Error Unit) (batch len : Nat)
    (hb : ∀ i q r, oracle i q = .ok r → r ≤ q) :
    ∀ fuel written calls w c, written ≤ len →
      copyBytesAux oracle upd batch len written calls fuel = some (.ok (w, c)) →
      w = len := by
  intro fuel
  induction fuel with
  | zero =>
    intro written calls w c hle h
    rw [copyBytesAux] at h
    by_cases hlt : written < len
    · simp [hlt] at h
    · simp [hlt] at h
      omega
  | succ fuel ih =>
    intro written calls w c hle h
    rw [copyBytesAux] at h
    by_cases hlt : written < len
    · simp only [hlt, if_true] at h
      cases ho : oracle calls (min (len - written) batch) with
      | error e => rw [ho] at h; simp at h
      | ok r =>
        rw [ho] at h
        cases hu : upd calls with
        | error e => rw [hu] at h; simp at h
        | ok u =>
          rw [hu] at h
          simp only at h
          have hr : r ≤ min (len - written) batch := hb _ _ _ ho
          exact ih (written + r) (calls + 1) w c (by omega) h
    · simp [hlt] at h
      omega

/-- C3: whenever copy_file completes with Ok n, n is the metadata length
snapshot of the handle, on each of the three paths: a successful reflink
returns the length directly, copy_sparse returns Ok(len) by construction
(operations.rs line 107), and the dense copy_bytes loop only stops once
written has reached the requested length, which it cannot overshoot while
each copy_file_bytes call transfers at most the number of bytes it was
asked for. -/
theorem copy_file_returns_source_length (src dst : String) (mode : Reflink)
    (rl sp : Except Error Bool) (f : SparseFile) (oracle : Nat → Nat → Except Error Nat)
    (upd : Nat → Except Error Unit) (batch fuel n : Nat)
    (hb : ∀ i q r, oracle i q = .ok r → r ≤ q)
    (h : copy_file src dst mode rl sp f oracle upd batch fuel = some (.ok n)) :
    n = f.len := by
  rw [copy_file.eq_def] at h
  cases htr : try_reflink src dst mode rl with
  | error e => rw [htr] at h; simp at h
  | ok worked =>
    rw [htr] at h
    cases worked with
    | true => simp at h; omega
    | false =>
      simp only at h
      cases sp with
      | error e => simp at h
      | ok spv =>
        cases spv with
        | true =>
          simp only at h
          cases hcs : copy_sparse f oracle upd batch fuel with
          | none => rw [hcs] at h; simp at h
          | some out =>
            rw [hcs] at h
            cases out with
            | error e => simp at h
            | ok p => simp at h; omega
        | false =>
          simp only at h
          cases hcb : copy_bytes oracle upd batch f.len fuel with
          | none => rw [hcb] at h; simp at h
          | some out =>
            rw [hcb] at h
            cases out with
            | error e => simp at h
            | ok p =>
              obtain ⟨w, c⟩ := p
              simp only at h
              have := copyBytesAux_ok_written oracle upd batch f.len hb fuel 0 0 w c
                (by omega) hcb
              simp at h
              omega

/-- C3 witness: a dense 2-byte copy with a well-behaved oracle completes
and the theorem applies, giving 2 = len. -/
theorem copy_file_returns_source_length_witness :
    (2 : Nat) = (SparseFile.mk 2 (fun _ => true)).len :=
  copy_file_returns_source_length "a" "b" .never (.ok false) (.ok false)
    (SparseFile.mk 2 (fun _ => true)) (fun _ q => .ok q) (fun _ => .ok ()) 4 2 2
    (fun _ q r hqr => by injection hqr with h2; omega) rfl

/-! ## C5 -/

theorem seekData_spec (f : SparseFile) (pos d : Nat) (h : seekData f pos = some d) :
    pos ≤ d ∧ d < f.len ∧ f.isData d = true := by
  have hp := List.find?_some h
  have hm := List.mem_of_find?_eq_some h
  rw [List.mem_range] at hm
  simp only [Bool.and_eq_true, decide_eq_true_eq] at hp
  exact ⟨hp.1, hm, hp.2⟩

theorem seekHole_spec (f : SparseFile) (pos h0 : Nat) (h : seekHole f pos = some h0) :
    pos ≤ h0 ∧ h0 < f.len ∧ f.isData h0 = false := by
  have hp := List.find?_some h
  have hm := List.mem_of_find?_eq_some h
  rw [List.mem_range] at hm
  simp only [Bool.and_eq_true, decide_eq_true_eq, Bool.not_eq_true'] at hp
  exact ⟨hp.1, hm, hp.2⟩

theorem next_segment_bounds (f : SparseFile) (pos : Nat) (hp : pos < f.len) :
    pos ≤ (next_sparse_segments f pos).1
  ∧ (next_sparse_segments f pos).1 ≤ (next_sparse_segments f pos).2
  ∧ (next_sparse_segments f pos).2 ≤ f.len
  ∧ pos < (next_sparse_segments f pos).2 := by
  simp only [next_sparse_segments]
  cases hd : seekData f pos with
  | none =>
    simp only [nextData, hd, Option.getD_none]
    cases hh : seekHole f f.len with
    | none => simp only [nextHole, hh, Option.getD_none]; omega
    | some h0 =>
      obtain ⟨h1, h2, _⟩ := seekHole_spec f f.len h0 hh
      omega
  | some d =>
    obtain ⟨hd1, hd2, hd3⟩ := seekData_spec f pos d hd
    simp only [nextData, hd, Option.getD_some]
    cases hh : seekHole f d with
    | none => simp only [nextHole, hh, Option.getD_none]; omega
    | some h0 =>
      obtain ⟨hh1, hh2, hh3⟩ := seekHole_spec f d h0 hh
      simp only [nextHole, hh, Option.getD_some]
      have hne : h0 ≠ d := fun he => by rw [he, hd3] at hh3; cases hh3
      omega

theorem lastHole_cons (pos d h : Nat) (segs : List (Nat × Nat)) :
    lastHole pos ((d, h) :: segs) = lastHole h segs := by
  cases segs with
  | nil => rfl
  | cons b m =>
    cases hgl : (b :: m).getLast? with
    | none => rw [List.getLast?_eq_none_iff] at hgl; cases hgl
    | some x => simp only [lastHole, List.getLast?_cons_cons, hgl, Option.map_some',
        Option.getD_some]

theorem copySparseAux_succ (f : SparseFile) (oracle : Nat → Nat → Except Error Nat)
    (upd : Nat → Except Error Unit) (batch pos calls fuel : Nat) (hp : pos < f.len) :
    copySparseAux f oracle upd batch pos calls (fuel + 1) =
      match copyBytesAux oracle upd batch
          ((next_sparse_segments f pos).2 - (next_sparse_segments f pos).1) 0 calls
          ((next_sparse_segments f pos).2 - (next_sparse_segments f pos).1) with
      | none => none
      | some (.error e) => some (.error e)
      | some (.ok (_, calls2)) =>
        match copySparseAux f oracle upd batch (next_sparse_segments f pos).2 calls2 fuel with
        | none => none
        | some (.error e) => some (.error e)
        | some (.ok (segs, c)) =>
          some (.ok (((next_sparse_segments f pos).1, (next_sparse_segments f pos).2) :: segs, c)) := by
  rw [copySparseAux]
  simp only [hp, if_true]

theorem copySparseAux_stop (f : SparseFile) (oracle : Nat → Nat → Except Error Nat)
    (upd : Nat → Except Error Unit) (batch pos calls fuel : Nat) (hp : ¬pos < f.len) :
    copySparseAux f oracle upd batch pos calls fuel = some (.ok ([], calls)) := by
  cases fuel <;> (rw [copySparseAux]; simp [hp])

theorem copySparseAux_ok_chain (f : SparseFile) (oracle : Nat → Nat → Except Error Nat)
    (upd : Nat → Except Error Unit) (batch : Nat) :
    ∀ fuel pos calls segs c,
      copySparseAux f oracle upd batch pos calls fuel = some (.ok (segs, c)) →
      chainSeg f.len pos segs ∧ f.len ≤ lastHole pos segs := by
  intro fuel
  induction fuel with
  | zero =>
    intro pos calls segs c h
    rw [copySparseAux] at h
    by_cases hp : pos < f.len
    · simp [hp] at h
    · simp [hp] at h
      obtain ⟨hs, _⟩ := h
      subst hs
      exact ⟨trivial, by simp [lastHole]; omega⟩
  | succ fuel ih =>
    intro pos calls segs c h
    by_cases hp : pos < f.len
    · rw [copySparseAux_succ f oracle upd batch pos calls fuel hp] at h
      cases hcb : copyBytesAux oracle upd batch
          ((next_sparse_segments f pos).2 - (next_sparse_segments f pos).1) 0 calls
          ((next_sparse_segments f pos).2 - (next_sparse_segments f pos).1) with
      | none => rw [hcb] at h; simp at h
      | some outB =>
        rw [hcb] at h
        cases outB with
        | error e => simp at h
        | ok p =>
          obtain ⟨w, calls2⟩ := p
          simp only at h
          cases hrec : copySparseAux f oracle upd batch
              (next_sparse_segments f pos).2 calls2 fuel with
          | none => rw [hrec] at h; simp at h
          | some outR =>
            rw [hrec] at h
            cases outR with
            | error e => simp at h
            | ok q =>
              obtain ⟨segs2, c2⟩ := q
              simp only [Option.some.injEq, Except.ok.injEq, Prod.mk.injEq] at h
              obtain ⟨hs, hc⟩ := h
              subst hs
              obtain ⟨ihc, ihl⟩ := ih (next_sparse_segments f pos).2 calls2 segs2 c2 hrec
              obtain ⟨b1, b2, b3, b4⟩ := next_segment_bounds f pos hp
              constructor
              · simp only [chainSeg]
                exact ⟨b1, b2, b3, ihc⟩
              · rw [lastHole_cons]
                exact ihl
    · rw [copySparseAux_stop f oracle upd batch pos calls (fuel + 1) hp] at h
      simp only [Option.some.injEq, Except.ok.injEq, Prod.mk.injEq] at h
      obtain ⟨hs, _⟩ := h
      subst hs
      exact ⟨trivial, by simp [lastHole]; omega⟩

theorem copyBytesAux_progress_total (oracle : Nat → Nat → Except Error Nat)
    (upd : Nat → Except Error Unit) (batch : Nat)
    (hbp : 0 < batch)
    (ho : ∀ i q, 0 < q → ∃ r, oracle i q = .ok r ∧ 0 < r ∧ r ≤ q)
    (hu : ∀ i, upd i = .ok ()) :
    ∀ fuel len written calls, len - written ≤ fuel →
      ∃ w c, copyBytesAux oracle upd batch len written calls fuel = some (.ok (w, c)) := by
  intro fuel
  induction fuel with
  | zero =>
    intro len written calls hle
    refine ⟨written, calls, ?_⟩
    rw [copyBytesAux]
    have hnl : ¬written < len := by omega
    simp [hnl]
  | succ fuel ih =>
    intro len written calls hle
    by_cases hlt : written < len
    · obtain ⟨r, hor, hr0, hrq⟩ := ho calls (min (len - written) batch) (by omega)
      obtain ⟨w, c, hrec⟩ := ih len (written + r) (calls + 1) (by omega)
      refine ⟨w, c, ?_⟩
      rw [copyBytesAux]
      simp only [hlt, if_true]
      rw [hor, hu calls]
      simp only
      exact hrec
    · refine ⟨written, calls, ?_⟩
      rw [copyBytesAux]
      simp [hlt]

theorem copySparseAux_progress_total (f : SparseFile)
    (oracle : Nat → Nat → Except Error Nat) (upd : Nat → Except Error Unit) (batch : Nat)
    (hbp : 0 < batch)
    (ho : ∀ i q, 0 < q → ∃ r, oracle i q = .ok r ∧ 0 < r ∧ r ≤ q)
    (hu : ∀ i, upd i = .ok ()) :
    ∀ fuel pos calls, f.len - pos ≤ fuel →
      ∃ segs c, copySparseAux f oracle upd batch pos calls fuel = some (.ok (segs, c)) := by
  intro fuel
  induction fuel with
  | zero =>
    intro pos calls hle
    exact ⟨[], calls, copySparseAux_stop f oracle upd batch pos calls 0 (by omega)⟩
  | succ fuel ih =>
    intro pos calls hle
    by_cases hp : pos < f.len
    · obtain ⟨b1, b2, b3, b4⟩ := next_segment_bounds f pos hp
      obtain ⟨w, calls2, hcb⟩ := copyBytesAux_progress_total oracle upd batch hbp ho hu
        ((next_sparse_segments f pos).2 - (next_sparse_segments f pos).1)
        ((next_sparse_segments f pos).2 - (next_sparse_segments f pos).1) 0 calls (by omega)
      obtain ⟨segs, c, hrec⟩ := ih (next_sparse_segments f pos).2 calls2 (by omega)
      refine ⟨((next_sparse_segments f pos).1, (next_sparse_segments f pos).2) :: segs, c, ?_⟩
      rw [copySparseAux_succ f oracle upd batch pos calls fuel hp, hcb]
      simp only
      rw [hrec]
    · exact ⟨[], calls, copySparseAux_stop f oracle upd batch pos calls (fuel + 1) hp⟩

theorem nextData_zero_full (f : SparseFile) (h0 : 0 < f.len)
    (hall : ∀ n, n < f.len → f.isData n = true) : nextData f 0 = 0 := by
  obtain ⟨m, hm⟩ : ∃ m, f.len = m + 1 := ⟨f.len - 1, by omega⟩
  have hfind : seekData f 0 = some 0 := by
    rw [seekData, hm, List.range_succ_eq_map]
    rw [List.find?_cons_of_pos]
    simp [hall 0 h0]
  simp [nextData, hfind]

theorem nextHole_zero_full (f : SparseFile)
    (hall : ∀ n, n < f.len → f.isData n = true) : nextHole f 0 = f.len := by
  have hfind : seekHole f 0 = none := by
    rw [seekHole, List.find?_eq_none]
    intro x hx
    rw [List.mem_range] at hx
    simp [hall x hx]
  simp [nextHole, hfind]

/-- C5: the segmented copy loop of operations.rs lines 96-108.  First
conjunct: every completed successful run from cursor pos produces a list
of (next_data, next_hole) segments that is ordered, pairwise disjoint,
contained within the file length, starts at or after pos, and whose final
hole offset is at or past the source length (the loop exits with the
cursor at or past len).  Second conjunct, given a positive batch size and
copy calls that always make bounded positive progress: the run from offset
0 with fuel len completes successfully, and on a file with no holes it
degenerates to the single full-file segment (0, len). -/
theorem copy_sparse_segments_spec (f : SparseFile)
    (oracle : Nat → Nat → Except Error Nat) (upd : Nat → Except Error Unit) (batch : Nat) :
    (∀ fuel pos calls segs c,
        copySparseAux f oracle upd batch pos calls fuel = some (.ok (segs, c)) →
        chainSeg f.len pos segs ∧ f.len ≤ lastHole pos segs)
  ∧ (0 < batch →
     (∀ i q, 0 < q → ∃ r, oracle i q = .ok r ∧ 0 < r ∧ r ≤ q) →
     (∀ i, upd i = .ok ()) →
       (∃ segs c, copy_sparse f oracle upd batch f.len = some (.ok (segs, c)))
     ∧ (0 < f.len → (∀ n, n < f.len → f.isData n = true) →
          ∃ c, copy_sparse f oracle upd batch f.len = some (.ok ([(0, f.len)], c)))) := by
  constructor
  · exact copySparseAux_ok_chain f oracle upd batch
  · intro hbp ho hu
    constructor
    · exact copySparseAux_progress_total f oracle upd batch hbp ho hu f.len 0 0 (by omega)
    · intro h0 hall
      obtain ⟨m, hm⟩ : ∃ m, f.len = m + 1 := ⟨f.len - 1, by omega⟩
      have hseg : next_sparse_segments f 0 = (0, f.len) := by
        rw [next_sparse_segments, nextData_zero_full f h0 hall, nextHole_zero_full f hall]
      obtain ⟨w, c2, hcb⟩ := copyBytesAux_progress_total oracle upd batch hbp ho hu
        f.len f.len 0 0 (by omega)
      refine ⟨c2, ?_⟩
      rw [copy_sparse]
      conv_lhs => rw [hm]
      rw [copySparseAux_succ f oracle upd batch 0 0 m h0]
      rw [hseg]
      simp only [Nat.sub_zero]
      rw [hcb]
      simp only
      rw [copySparseAux_stop f oracle upd batch f.len c2 m (by omega)]


/-! ## C6 -/

/-- C6: the staged map_extents never accumulates extents.  The rustix
ioctl call receives the Copy struct FiemapReq by value (linux.rs line
182) and the Ok(_) arm discards its returned output, so
req.fm_mapped_extents keeps its default value 0 and the loop breaks at
line 194 on the first successful query.  With the kernel reporting a
non-final extent batch [0, 4) at offset 0 - an input on which the claimed
protocol requires that batch to be accumulated and a second query issued
from offset 4 - the result is Ok (Some []); in general every oracle whose
first query succeeds yields Ok (Some []) whatever extents it reports, on
any fuel.  Only the errno classification behaves as the claim says:
EOPNOTSUPP yields Ok None and any other errno propagates. -/
theorem map_extents_discards_kernel_response :
    twoBatchOracle 0 = .ok [⟨0, 4, 0⟩]
  ∧ map_extents twoBatchOracle 3 = some (.ok (some []))
  ∧ map_extents (fun _ => .error .OPNOTSUPP) 3 = some (.ok none)
  ∧ map_extents (fun _ => .error (.other 95)) 3 = some (.error (.errno (.other 95)))
  ∧ (∀ (oracle : Nat → Except Errno (List FExtent)) (es : List FExtent) (fuel : Nat),
      oracle 0 = .ok es → map_extents oracle (fuel + 1) = some (.ok (some []))) := by
  refine ⟨rfl, rfl, rfl, rfl, ?_⟩
  intro oracle es fuel h
  rw [map_extents, mapExtentsAux]
  have h0 : FiemapReq.default.fm_start = 0 := rfl
  rw [h0, h]
  rfl
